import Mathlib

/-!
# Lesson 9: a heap-allocated `int` cell

Verification development for `src/Pointer Full Lesson/Lesson 9.c`:

```c
int main()
{
    int *px ;
    px = (int *)malloc(sizeof((*px)));
    *px = 20;
    printf("The of px is : %d",*px);

    getch();
    return 0;
}
```

The program is embedded as a function in a small state-and-fault monad.
The library calls it makes (`malloc`, `printf`, `getch`) and the two
pointer accesses are operations of that monad; what the C environment
decides (the width of `int`, the answer of the allocator, the bits found
in fresh storage, the key pressed) is an explicit input `Env`.
-/

namespace Lesson9

/-! ## Platform and environment -/

/-- The target platform: `sizeof(int)` and the size of a data pointer, in
8-bit bytes. The C standard makes every object type at least one byte wide. -/
structure Platform where
  sizeofInt : Nat
  sizeofPtr : Nat
  sizeofInt_pos : 0 < sizeofInt

/-- Number of value bits-plus-sign of an `int`. -/
def Platform.intBits (P : Platform) : Nat := 8 * P.sizeofInt

/-- The constant `INT_MIN` of the platform. -/
def Platform.intMin (P : Platform) : Int := -(2 ^ (P.intBits - 1) : Int)

/-- The constant `INT_MAX` of the platform. -/
def Platform.intMax (P : Platform) : Int := (2 ^ (P.intBits - 1) : Int) - 1

/-- Values representable in an `int`. -/
def Platform.inRange (P : Platform) (v : Int) : Prop := P.intMin ≤ v ∧ v ≤ P.intMax

instance (P : Platform) (v : Int) : Decidable (P.inRange v) := by
  unfold Platform.inRange; exact inferInstance

/-- Two's complement reduction of an integer to the width of `int`: what an
`int` object holds after the bits of `v` are stored into it. -/
def Platform.wrapInt (P : Platform) (v : Int) : Int :=
  (v + 2 ^ (P.intBits - 1)) % 2 ^ P.intBits - 2 ^ (P.intBits - 1)

/-- What the surroundings of the program decide. -/
structure Env where
  /-- the platform the program is compiled for -/
  plat : Platform
  /-- address the allocator answers a `malloc` request with; `0` is the
  null pointer, the answer of an allocator that cannot satisfy the request -/
  mallocResult : Nat
  /-- bits lying in storage handed out by `malloc`, which does not clear it -/
  garbage : Int
  /-- key the user presses at the `getch` pause -/
  key : Int

/-- The allocation request of the run is satisfied. -/
def Env.allocOK (env : Env) : Prop := env.mallocResult ≠ 0

instance (env : Env) : Decidable env.allocOK := by
  unfold Env.allocOK; exact inferInstance

/-! ## Types of the program -/

/-- The C types that occur in the program. -/
inductive CType where
  | void
  | int
  | ptr (t : CType)
  deriving DecidableEq, Repr

/-- Type of `*e` for an expression `e` of type `t`. -/
def CType.pointee : CType → Option CType
  | .ptr t => some t
  | _ => none

/-- The operator `sizeof` on a type; `void` has no size. -/
def sizeofType (P : Platform) : CType → Option Nat
  | .int => some P.sizeofInt
  | .ptr _ => some P.sizeofPtr
  | .void => none

/-! ## Memory, events and faults -/

/-- One `int`-sized slot of heap storage: the value its bits denote and
whether the program has stored into it since it was allocated. -/
structure Cell where
  val : Int
  init : Bool
  deriving DecidableEq, Repr

/-- A block handed out by `malloc`. -/
structure Block where
  addr : Nat
  size : Nat
  cells : List Cell
  live : Bool
  deriving DecidableEq, Repr

/-- Kind of access through a pointer. -/
inductive Access where
  | read
  | write
  deriving DecidableEq, Repr

/-- Undefined behaviour the program can run into. -/
inductive Fault where
  /-- an access `*p` with `p` the null pointer -/
  | nullDeref (a : Access)
  /-- an access `*p` with `p` not the address of a live block -/
  | wildDeref (a : Access) (p : Nat)
  /-- an access `*p` with `p` the address of a live block too small for an `int` -/
  | outOfBounds (a : Access) (p : Nat)
  /-- a call `free(p)` with `p` neither null nor the address of a live block -/
  | badFree (p : Nat)
  /-- the operators `sizeof` or `*` applied where the type system forbids it -/
  | illTyped
  /-- a call of `printf` with a conversion the model does not know or a missing argument -/
  | badFormat
  deriving DecidableEq, Repr

/-- Observable effects, in the order they happen. -/
inductive Event where
  | malloc (size : Nat) (result : Nat)
  | free (p : Nat)
  | store (p : Nat) (v : Int)
  | load (p : Nat) (v : Int) (init : Bool)
  | output (text : List Char)
  | getch (key : Int)
  deriving DecidableEq, Repr

/-- State of a run. -/
structure World where
  env : Env
  heap : List Block
  out : List Char
  trace : List Event

/-- State before `main` starts: empty heap, nothing printed. -/
def World.init (env : Env) : World := ⟨env, [], [], []⟩

/-- Text on standard output. -/
def World.stdout (w : World) : String := String.mk w.out

/-- Append an event to the trace. -/
def World.log (w : World) (e : Event) : World := { w with trace := w.trace ++ [e] }

/-! ## The monad of C statements -/

/-- A computation: from a state to a value or a fault, and the state reached. -/
def Prog (α : Type) : Type := World → Except Fault α × World

/-- Finish with a value. -/
def Prog.pure {α : Type} (a : α) : Prog α := fun w => (.ok a, w)

/-- Sequencing; a fault stops the run where it happens. -/
def Prog.bind {α β : Type} (m : Prog α) (f : α → Prog β) : Prog β := fun w =>
  match m w with
  | (.ok a, w1) => f a w1
  | (.error e, w1) => (.error e, w1)

instance : Monad Prog where
  pure := Prog.pure
  bind := Prog.bind

/-! ## Pointer accesses -/

/-- The live block that starts at address `p`. -/
def findBlock : List Block → Nat → Option Block
  | [], _ => none
  | b :: bs, p => if b.addr = p ∧ b.live = true then some b else findBlock bs p

/-- Replace the live block that starts at `p`. -/
def updateBlock (p : Nat) (b1 : Block) : List Block → List Block
  | [] => []
  | b :: bs => if b.addr = p ∧ b.live = true then b1 :: bs else b :: updateBlock p b1 bs

/-- The assignment `*p = v` for `p` of type `int *`. -/
def store (p : Nat) (v : Int) : Prog Unit := fun w =>
  if p = 0 then (.error (.nullDeref .write), w)
  else match findBlock w.heap p with
    | none => (.error (.wildDeref .write p), w)
    | some b =>
      match b.cells with
      | [] => (.error (.outOfBounds .write p), w)
      | _ :: cs =>
        let x := w.env.plat.wrapInt v
        let b1 : Block := { b with cells := ⟨x, true⟩ :: cs }
        (.ok (), { w with heap := updateBlock p b1 w.heap }.log (.store p x))

/-- The expression `*p` read as a value, for `p` of type `int *`. -/
def load (p : Nat) : Prog Int := fun w =>
  if p = 0 then (.error (.nullDeref .read), w)
  else match findBlock w.heap p with
    | none => (.error (.wildDeref .read p), w)
    | some b =>
      match b.cells with
      | [] => (.error (.outOfBounds .read p), w)
      | c :: _ => (.ok c.val, w.log (.load p c.val c.init))

/-! ## Library calls -/

/-- The call `malloc(size)` of `<stdlib.h>`: the allocator answers with the
address the environment fixes. A non-null answer is the start of a fresh
block of `size` bytes, seen as the `int` slots that fit into it, whose
content is whatever lay there. The result has type `void *`. -/
def malloc (size : Nat) : Prog Nat := fun w =>
  let r := w.env.mallocResult
  if r = 0 then (.ok 0, w.log (.malloc size 0))
  else
    let c : Cell := ⟨w.env.plat.wrapInt w.env.garbage, false⟩
    let b : Block := ⟨r, size, List.replicate (size / w.env.plat.sizeofInt) c, true⟩
    (.ok r, { w with heap := b :: w.heap }.log (.malloc size r))

/-- The call `free(p)` of `<stdlib.h>`. -/
def free (p : Nat) : Prog Unit := fun w =>
  if p = 0 then (.ok (), w.log (.free 0))
  else match findBlock w.heap p with
    | none => (.error (.badFree p), w)
    | some b =>
      (.ok (), { w with heap := updateBlock p { b with live := false } w.heap }.log (.free p))

/-- Conversion of a pointer value to another pointer type, as in
`(int *)malloc(...)`: the address is kept. -/
def castPtr (_target : CType) (p : Nat) : Nat := p

/-- The decimal digit `d` as a character. -/
def digitChar (d : Nat) : Char := Char.ofNat (48 + d)

/-- Decimal digits of `n`, most significant first, by repeated division. -/
def utoaFuel : Nat → Nat → List Char
  | 0, _ => []
  | fuel + 1, n =>
    if n < 10 then [digitChar n] else utoaFuel fuel (n / 10) ++ [digitChar (n % 10)]

/-- Conversion of an unsigned number to decimal text. -/
def utoa (n : Nat) : List Char := utoaFuel (n + 1) n

/-- The conversion `%d` of `printf`: a minus sign for a negative value, then
the digits of its magnitude. -/
def itoa (v : Int) : List Char :=
  if v < 0 then '-' :: utoa v.natAbs else utoa v.toNat

/-- Expansion of a `printf` format with `int` arguments. Ordinary characters
are copied, `%d` converts the next argument and `%%` is a percent sign. -/
def format : List Char → List Int → Option (List Char)
  | [], _ => some []
  | c :: rest, args =>
    if c = '%' then
      match rest, args with
      | d :: rest1, a :: args1 =>
        if d = 'd' then (format rest1 args1).map (fun s => itoa a ++ s)
        else if d = '%' then (format rest1 (a :: args1)).map (fun s => '%' :: s)
        else none
      | d :: rest1, [] =>
        if d = '%' then (format rest1 []).map (fun s => '%' :: s) else none
      | [], _ => none
    else (format rest args).map (fun s => c :: s)

/-- The call `printf(fmt, args...)` of `<stdio.h>`; the result is the number
of characters written. -/
def printf (fmt : String) (args : List Int) : Prog Int := fun w =>
  match format fmt.toList args with
  | none => (.error .badFormat, w)
  | some s => (.ok s.length, { w with out := w.out ++ s }.log (.output s))

/-- The call `getch()` of `<conio.h>`: waits for a key and returns it without
echo. -/
def getch : Prog Int := fun w => (.ok w.env.key, w.log (.getch w.env.key))

/-- The operator `sizeof` applied to an expression of type `t`; the
expression is not evaluated. -/
def sizeof (t : Option CType) : Prog Nat := fun w =>
  match t.bind (sizeofType w.env.plat) with
  | some n => (.ok n, w)
  | none => (.error .illTyped, w)

/-! ## The program -/

/-- The declaration `int *px ;`. -/
def pxType : CType := .ptr .int

/-- The function `main` of `Lesson 9.c`. -/
def main : Prog Int := do
  -- px = (int *)malloc(sizeof((*px)));
  let n ← sizeof pxType.pointee
  let px := castPtr pxType (← malloc n)
  -- *px = 20;
  store px 20
  -- printf("The of px is : %d",*px);
  let v ← load px
  let _ ← printf "The of px is : %d" [v]
  -- getch();
  let _ ← getch
  -- return 0;
  return 0

/-- A run of the program in the environment `env`: the result of `main` and
the final state. -/
def run (env : Env) : Except Fault Int × World := main (World.init env)

/-- A 32-bit platform. -/
def ilp32 : Platform := ⟨4, 4, by decide⟩

/-- A 16-bit DOS platform. -/
def dos16 : Platform := ⟨2, 2, by decide⟩

/-- A run in which the allocator hands out address 4096. -/
def envOK : Env := ⟨ilp32, 4096, -123456, 13⟩

/-- A run in which the allocator is exhausted. -/
def envFail : Env := ⟨ilp32, 0, 7, 13⟩

/-! ## Observations on runs -/

/-- The block `main` owns after a satisfied allocation and the write. -/
def finalBlock (env : Env) : Block :=
  ⟨env.mallocResult, env.plat.sizeofInt, [⟨20, true⟩], true⟩

/-- The effects of a run with a satisfied allocation. -/
def okTrace (env : Env) : List Event :=
  [.malloc env.plat.sizeofInt env.mallocResult,
   .store env.mallocResult 20,
   .load env.mallocResult 20 true,
   .output "The of px is : 20".toList,
   .getch env.key]

/-- A handle through which an `int` can be accessed: a non-null address at
which a live block with room for an `int` starts. -/
def validHandle (w : World) (p : Nat) : Bool :=
  p != 0 &&
    match findBlock w.heap p with
    | some b => !b.cells.isEmpty
    | none => false

/-- The expression `*p` evaluated `n` times in a row, with nothing in between. -/
def readN (p : Nat) : Nat → Prog (List Int)
  | 0 => pure []
  | n + 1 => do
    let v ← load p
    let vs ← readN p n
    return v :: vs

/-- Sizes asked of the allocator during a run. -/
def requests : List Event → List Nat
  | [] => []
  | .malloc size _ :: es => size :: requests es
  | _ :: es => requests es

/-- Reads of a slot the program had not stored into. -/
def uninitReads : List Event → List Event
  | [] => []
  | .load p v false :: es => .load p v false :: uninitReads es
  | _ :: es => uninitReads es

/-- Value of a digit sequence, most significant digit first. -/
def decValue (ds : List Nat) : Nat := ds.foldl (fun acc d => 10 * acc + d) 0

/-- A program that reads its cell without having written it. -/
def peekFresh : Prog Int := do
  let n ← sizeof pxType.pointee
  let px := castPtr pxType (← malloc n)
  load px

/-! ## Lifecycle of a handle -/

/-- The states of the storage behind a handle. -/
inductive Lifecycle where
  | Unallocated
  | Allocated
  | Freed
  deriving DecidableEq, Repr

/-- Effect of an event on the storage behind handle `h`. -/
def Lifecycle.step (h : Nat) : Lifecycle → Event → Lifecycle
  | .Unallocated, .malloc _ r => if r = h ∧ r ≠ 0 then .Allocated else .Unallocated
  | .Freed, .malloc _ r => if r = h ∧ r ≠ 0 then .Allocated else .Freed
  | .Allocated, .free p => if p = h then .Freed else .Allocated
  | s, _ => s

/-- The states handle `h` goes through, from `s` on, along a trace. -/
def lifecycleFrom (h : Nat) : Lifecycle → List Event → List Lifecycle
  | s, [] => [s]
  | s, e :: es => s :: lifecycleFrom h (Lifecycle.step h s e) es

/-- The states handle `h` goes through along the trace of a run. -/
def lifecycleHistory (h : Nat) (tr : List Event) : List Lifecycle :=
  lifecycleFrom h .Unallocated tr

/-- How often a history moves from state `a` to state `b`. -/
def countMoves (a b : Lifecycle) : List Lifecycle → Nat
  | x :: y :: rest => (if x = a ∧ y = b then 1 else 0) + countMoves a b (y :: rest)
  | _ => 0

/-- State of handle `h` as the heap records it. -/
def lifecycleOf (heap : List Block) (h : Nat) : Lifecycle :=
  if (findBlock heap h).isSome then .Allocated
  else if heap.any (fun b => b.addr == h) then .Freed
  else .Unallocated

/-- The handle `px` of a run: the converted result of the allocation. -/
def Env.handle (env : Env) : Nat := castPtr pxType env.mallocResult

/-- The handle is allocated at the end of a trace and in the heap. -/
def StillAllocated (w : World) (h : Nat) : Prop :=
  (lifecycleHistory h w.trace).getLast? = some .Allocated ∧ lifecycleOf w.heap h = .Allocated

instance (w : World) (h : Nat) : Decidable (StillAllocated w h) := by
  unfold StillAllocated; exact inferInstance

/-- The lifecycle of `px` in the run in `env`: it moves from `Unallocated` to
`Allocated` exactly once, `Freed` is never reached, and when `main` returns
the handle is still `Allocated`. -/
def LeakedOnce (env : Env) : Prop :=
  countMoves .Unallocated .Allocated (lifecycleHistory env.handle (run env).2.trace) = 1 ∧
    Lifecycle.Freed ∉ lifecycleHistory env.handle (run env).2.trace ∧
    match (run env).1 with
    | .ok _ => StillAllocated (run env).2 env.handle
    | .error _ => True

instance (env : Env) : Decidable (LeakedOnce env) := by
  unfold LeakedOnce
  cases (run env).1 <;> exact inferInstance

/-- A program that releases its cell. -/
def allocThenFree : Prog Int := do
  let n ← sizeof pxType.pointee
  let px := castPtr pxType (← malloc n)
  free px
  return 0

/-! ## Basic facts -/

theorem Platform.intBits_pos (P : Platform) : 8 ≤ P.intBits := by
  have := P.sizeofInt_pos
  unfold Platform.intBits
  omega

theorem Platform.two_pow_intBits (P : Platform) :
    (2 : Int) ^ P.intBits = 2 * 2 ^ (P.intBits - 1) := by
  have h := P.intBits_pos
  have : P.intBits = (P.intBits - 1) + 1 := by omega
  conv_lhs => rw [this]
  rw [pow_succ]; ring

theorem Platform.wrapInt_of_inRange (P : Platform) (v : Int) (h : P.inRange v) :
    P.wrapInt v = v := by
  unfold Platform.inRange Platform.intMin Platform.intMax at h
  unfold Platform.wrapInt
  rw [P.two_pow_intBits]
  have hM : (0 : Int) < 2 ^ (P.intBits - 1) := by positivity
  rw [Int.emod_eq_of_lt (by omega) (by omega)]
  omega

theorem Platform.half_ge (P : Platform) : (128 : Int) ≤ 2 ^ (P.intBits - 1) := by
  have h := P.intBits_pos
  have : (2 : Int) ^ 7 ≤ 2 ^ (P.intBits - 1) :=
    pow_le_pow_right₀ (by norm_num) (by omega)
  simpa using this

theorem Platform.inRange_twenty (P : Platform) : P.inRange 20 := by
  have := P.half_ge
  unfold Platform.inRange Platform.intMin Platform.intMax
  omega

theorem Platform.wrapInt_twenty (P : Platform) : P.wrapInt 20 = 20 :=
  P.wrapInt_of_inRange 20 P.inRange_twenty

theorem format_label (v : Int) :
    format "The of px is : %d".toList [v] = some ("The of px is : ".toList ++ itoa v) := by
  simp [format, String.toList]

theorem itoa_twenty : itoa 20 = "20".toList := by decide

theorem run_of_allocOK (env : Env) (h : env.allocOK) :
    run env = (.ok 0, ⟨env, [finalBlock env], "The of px is : 20".toList, okTrace env⟩) := by
  unfold Env.allocOK at h
  have hs := env.plat.sizeofInt_pos
  have hf : format "The of px is : %d".toList [20] = some "The of px is : 20".toList := by
    decide
  simp only [String.toList] at hf
  simp [run, main, bind, Prog.bind, pure, Prog.pure, sizeof, pxType, CType.pointee, sizeofType,
    malloc, castPtr, store, load, printf, getch, World.init, World.log, h, findBlock, updateBlock,
    Nat.div_self hs, Platform.wrapInt_twenty, hf, finalBlock, okTrace]

theorem run_of_allocFail (env : Env) (h : env.mallocResult = 0) :
    run env = (.error (.nullDeref .write), ⟨env, [], [], [.malloc env.plat.sizeofInt 0]⟩) := by
  simp [run, main, bind, Prog.bind, pure, Prog.pure, sizeof, pxType, CType.pointee, sizeofType,
    malloc, castPtr, store, World.init, World.log, h]


theorem validHandle_spec (w : World) (p : Nat) (h : validHandle w p = true) :
    p ≠ 0 ∧ ∃ b c cs, findBlock w.heap p = some b ∧ b.cells = c :: cs := by
  unfold validHandle at h
  simp only [Bool.and_eq_true, bne_iff_ne, ne_eq] at h
  obtain ⟨hp, h2⟩ := h
  refine ⟨hp, ?_⟩
  cases hb : findBlock w.heap p with
  | none => simp [hb] at h2
  | some b =>
    cases hc : b.cells with
    | nil => simp [hb, hc] at h2
    | cons c cs => exact ⟨b, c, cs, rfl, hc⟩

theorem findBlock_some (heap : List Block) (p : Nat) (b : Block)
    (h : findBlock heap p = some b) : b.addr = p ∧ b.live = true := by
  induction heap with
  | nil => simp [findBlock] at h
  | cons x xs ih =>
    unfold findBlock at h
    split_ifs at h with hx
    · cases h; exact hx
    · exact ih h

theorem findBlock_updateBlock (heap : List Block) (p : Nat) (b b1 : Block)
    (h : findBlock heap p = some b) (ha : b1.addr = p) (hl : b1.live = true) :
    findBlock (updateBlock p b1 heap) p = some b1 := by
  induction heap with
  | nil => simp [findBlock] at h
  | cons x xs ih =>
    unfold findBlock at h
    unfold updateBlock
    split_ifs at h with hx
    · simp [hx, findBlock, ha, hl]
    · simp only [hx, if_false]
      unfold findBlock
      simp only [hx, if_false]
      exact ih h

theorem store_eq (w : World) (p : Nat) (v : Int) (b : Block) (c : Cell) (cs : List Cell)
    (hp : p ≠ 0) (hb : findBlock w.heap p = some b) (hc : b.cells = c :: cs) :
    store p v w =
      (.ok (), { w with
        heap := updateBlock p { b with cells := ⟨w.env.plat.wrapInt v, true⟩ :: cs } w.heap,
        trace := w.trace ++ [.store p (w.env.plat.wrapInt v)] }) := by
  simp [store, hp, hb, hc, World.log]

theorem load_eq (w : World) (p : Nat) (b : Block) (c : Cell) (cs : List Cell)
    (hp : p ≠ 0) (hb : findBlock w.heap p = some b) (hc : b.cells = c :: cs) :
    load p w = (.ok c.val, { w with trace := w.trace ++ [.load p c.val c.init] }) := by
  simp [load, hp, hb, hc, World.log]

theorem readN_eq (p : Nat) (b : Block) (c : Cell) (cs : List Cell) (hp : p ≠ 0)
    (hc : b.cells = c :: cs) (n : Nat) :
    ∀ w : World, findBlock w.heap p = some b →
      (readN p n w).1 = .ok (List.replicate n c.val) ∧ (readN p n w).2.heap = w.heap ∧
        (readN p n w).2.out = w.out := by
  induction n with
  | zero => intro w _; exact ⟨rfl, rfl, rfl⟩
  | succ n ih =>
    intro w hb
    have h1 := ih { w with trace := w.trace ++ [.load p c.val c.init] } hb
    obtain ⟨r1, r2, r3⟩ := h1
    have hl := load_eq w p b c cs hp hb hc
    cases hr : readN p n { w with trace := w.trace ++ [.load p c.val c.init] } with
    | mk res w2 =>
      rw [hr] at r1 r2 r3
      simp only at r1 r2 r3
      subst r1
      simp [readN, bind, Prog.bind, hl, hr, pure, Prog.pure, r2, r3, List.replicate_succ]

theorem decValue_append (ds : List Nat) (d : Nat) :
    decValue (ds ++ [d]) = 10 * decValue ds + d := by
  simp [decValue, List.foldl_append]

theorem utoaFuel_spec : ∀ fuel n : Nat, n < fuel →
    ∃ ds : List Nat, utoaFuel fuel n = ds.map digitChar ∧ ds ≠ [] ∧
      ds.all (fun d => decide (d < 10)) = true ∧ (ds.head? ≠ some 0 ∨ ds = [0]) ∧
      decValue ds = n := by
  intro fuel
  induction fuel with
  | zero => intro n h; omega
  | succ fuel ih =>
    intro n h
    unfold utoaFuel
    by_cases hn : n < 10
    · refine ⟨[n], by simp [hn], by simp, by simp [hn], ?_, by simp [decValue]⟩
      by_cases h0 : n = 0
      · right; rw [h0]
      · left; simpa using h0
    · obtain ⟨ds, h1, h2, h3, h4, h5⟩ := ih (n / 10) (by omega)
      refine ⟨ds ++ [n % 10], by simp [hn, h1], by simp, ?_, ?_, ?_⟩
      · have : n % 10 < 10 := Nat.mod_lt _ (by norm_num)
        simp [List.all_append, h3, this]
      · left
        cases ds with
        | nil => exact absurd rfl h2
        | cons d ds1 =>
          rcases h4 with h4 | h4
          · simpa using h4
          · rw [h4] at h5
            simp [decValue] at h5
            omega
      · rw [decValue_append, h5]
        omega

theorem itoa_spec (v : Int) :
    ∃ ds : List Nat, itoa v = (if v < 0 then ['-'] else []) ++ ds.map digitChar ∧ ds ≠ [] ∧
      ds.all (fun d => decide (d < 10)) = true ∧ (ds.head? ≠ some 0 ∨ ds = [0]) ∧
      decValue ds = v.natAbs := by
  unfold itoa utoa
  by_cases hv : v < 0
  · obtain ⟨ds, h1, h2, h3, h4, h5⟩ := utoaFuel_spec (v.natAbs + 1) v.natAbs (by omega)
    exact ⟨ds, by simp [hv, h1], h2, h3, h4, h5⟩
  · obtain ⟨ds, h1, h2, h3, h4, h5⟩ := utoaFuel_spec (v.toNat + 1) v.toNat (by omega)
    refine ⟨ds, by simp [hv, h1], h2, h3, h4, ?_⟩
    rw [h5]
    omega

theorem lifecycleFrom_no_free (h : Nat) : ∀ (tr : List Event) (s : Lifecycle),
    s ≠ .Freed → (∀ p, Event.free p ∉ tr) → Lifecycle.Freed ∉ lifecycleFrom h s tr := by
  intro tr
  induction tr with
  | nil =>
    intro s hs _
    simpa [lifecycleFrom] using hs.symm
  | cons e es ih =>
    intro s hs hf
    have hstep : Lifecycle.step h s e ≠ .Freed := by
      cases s <;> cases e <;> simp [Lifecycle.step] at hs ⊢
      · split_ifs <;> simp
      · exact fun _ => hf _ (List.mem_cons_self _ _)
    have hes : ∀ p, Event.free p ∉ es := fun p hp => hf p (List.mem_cons_of_mem _ hp)
    have := ih _ hstep hes
    simp only [lifecycleFrom, List.mem_cons, not_or]
    exact ⟨hs.symm, this⟩

theorem run_no_free (env : Env) (p : Nat) : Event.free p ∉ (run env).2.trace := by
  by_cases h : env.mallocResult = 0
  · rw [run_of_allocFail env h]; simp
  · rw [run_of_allocOK env h]; simp [okTrace]

/-! ## The run of `main` -/

/-- C1: in every run of `main` with a satisfied allocation the text on
standard output is exactly `The of px is : 20`: the label, the digits `20`,
no newline and nothing before or after. -/
theorem main_stdout (env : Env) (h : env.allocOK) :
    (run env).2.stdout = "The of px is : 20" := by
  rw [run_of_allocOK env h]; rfl

theorem main_stdout_witness :
    envOK.allocOK ∧ (run envOK).2.stdout = "The of px is : 20" :=
  ⟨by decide, main_stdout envOK (by decide)⟩

/-- C4: in every run of `main` with a satisfied allocation, whatever the
address, the content of the fresh storage and the key, no access faults and
`main` returns `0`; and in no run at all does `main` return another code. -/
theorem main_exit_code (env : Env) (h : env.allocOK) :
    (run env).1 = .ok 0 ∧ (∀ f, (run env).1 ≠ .error f) ∧
      ∀ (env2 : Env) (c : Int), (run env2).1 = .ok c → c = 0 := by
  refine ⟨by rw [run_of_allocOK env h], fun f => by rw [run_of_allocOK env h]; simp, ?_⟩
  intro env2 c hc
  by_cases h2 : env2.mallocResult = 0
  · rw [run_of_allocFail env2 h2] at hc; simp at hc
  · rw [run_of_allocOK env2 h2] at hc
    simpa using hc.symm

theorem main_exit_code_witness :
    envOK.allocOK ∧ (run envOK).1 = .ok 0 :=
  ⟨by decide, (main_exit_code envOK (by decide)).1⟩

/-- C5: `main` does not test the result of `malloc`. In a run in which the
allocator answers with the null pointer the only effect is the request, the
next step is the write through the null pointer, and the run ends there in
undefined behaviour: nothing is printed and `main` returns no code. -/
theorem main_alloc_failure (env : Env) (h : env.mallocResult = 0) :
    (run env).1 = .error (.nullDeref .write) ∧
      (run env).2.trace = [.malloc env.plat.sizeofInt 0] ∧
      (run env).2.stdout = "" ∧
      (run env).2.stdout ≠ "The of px is : 20" ∧
      ∀ c, (run env).1 ≠ .ok c := by
  rw [run_of_allocFail env h]
  refine ⟨rfl, rfl, rfl, ?_, fun c => by simp⟩
  simp only [World.stdout]
  decide

theorem main_alloc_failure_witness :
    envFail.mallocResult = 0 ∧ (run envFail).1 = .error (.nullDeref .write) :=
  ⟨by decide, (main_alloc_failure envFail (by decide)).1⟩

/-- C6: the one allocation request of `main` asks for `sizeof` of the
pointee type of `px`, which is `sizeof(int)` of the platform, whatever that
is: not zero, and room for exactly one `int` slot. -/
theorem main_alloc_size (env : Env) :
    requests (run env).2.trace = [env.plat.sizeofInt] ∧
      requests (run env).2.trace = (pxType.pointee.bind (sizeofType env.plat)).toList ∧
      pxType.pointee.bind (sizeofType env.plat) = some env.plat.sizeofInt ∧
      env.plat.sizeofInt ≠ 0 ∧
      env.plat.sizeofInt / env.plat.sizeofInt = 1 ∧
      (run env).2.heap.map (fun b => (b.size, b.cells.length)) =
        if env.mallocResult = 0 then [] else [(env.plat.sizeofInt, 1)] := by
  have hs := env.plat.sizeofInt_pos
  have hr : requests (run env).2.trace = [env.plat.sizeofInt] := by
    by_cases h : env.mallocResult = 0
    · rw [run_of_allocFail env h]; rfl
    · rw [run_of_allocOK env h]; rfl
  refine ⟨hr, by rw [hr]; rfl, rfl, by omega, Nat.div_self hs, ?_⟩
  · by_cases h : env.mallocResult = 0
    · rw [run_of_allocFail env h]; simp [h]
    · rw [run_of_allocOK env h]; simp [h, finalBlock]

/-- C8: in every run with a satisfied allocation the effects of `main` are,
in this order and once each: the allocation, the write of `20` into the
cell, the read of the cell, the output of the text, the wait for a key; then
`main` returns. -/
theorem main_effect_order (env : Env) (h : env.allocOK) :
    (run env).2.trace =
        [.malloc env.plat.sizeofInt env.mallocResult,
         .store env.mallocResult 20,
         .load env.mallocResult 20 true,
         .output "The of px is : 20".toList,
         .getch env.key] ∧
      (run env).1 = .ok 0 := by
  rw [run_of_allocOK env h]
  exact ⟨rfl, rfl⟩

theorem main_effect_order_witness :
    envOK.allocOK ∧
      (run envOK).2.trace =
        [.malloc 4 4096, .store 4096 20, .load 4096 20 true,
         .output "The of px is : 20".toList, .getch 13] :=
  ⟨by decide, (main_effect_order envOK (by decide)).1⟩

/-- C10: two runs of `main` with satisfied allocations print the same text
and return the same code, whatever the platforms, addresses, contents of the
fresh storage and keys; and no run reads a slot it has not written. -/
theorem main_independent (env1 env2 : Env) (h1 : env1.allocOK) (h2 : env2.allocOK) :
    (run env1).2.stdout = (run env2).2.stdout ∧
      (run env1).1 = (run env2).1 ∧
      uninitReads (run env1).2.trace = [] := by
  rw [run_of_allocOK env1 h1, run_of_allocOK env2 h2]
  exact ⟨rfl, rfl, rfl⟩

theorem main_independent_witness :
    envOK.allocOK ∧ Env.allocOK ⟨dos16, 7, 99, 27⟩ ∧
      (run envOK).2.stdout = (run ⟨dos16, 7, 99, 27⟩).2.stdout :=
  ⟨by decide, by decide, (main_independent envOK ⟨dos16, 7, 99, 27⟩ (by decide) (by decide)).1⟩

/-! ## The cell -/

/-- C2: storing an `int` value `v` through a valid handle and then reading
through the same handle yields `v`; in particular `20`, as in `main`, on
every platform. -/
theorem store_load_round_trip (w : World) (p : Nat) (v : Int)
    (hp : validHandle w p = true) (hv : w.env.plat.inRange v) :
    (store p v w).1 = .ok () ∧
      (load p (store p v w).2).1 = .ok v ∧
      ((store p v >>= fun _ => load p) w).1 = .ok v ∧
      (load p (store p 20 w).2).1 = .ok 20 := by
  obtain ⟨hp0, b, c, cs, hb, hc⟩ := validHandle_spec w p hp
  have key : ∀ x : Int, w.env.plat.inRange x →
      (store p x w).1 = .ok () ∧ (load p (store p x w).2).1 = .ok x := by
    intro x hx
    have hs := store_eq w p x b c cs hp0 hb hc
    rw [hs]
    refine ⟨rfl, ?_⟩
    have hb1 := findBlock_updateBlock w.heap p b
      { b with cells := ⟨w.env.plat.wrapInt x, true⟩ :: cs } hb (findBlock_some _ _ _ hb).1
      (findBlock_some _ _ _ hb).2
    rw [load_eq _ p _ ⟨w.env.plat.wrapInt x, true⟩ cs hp0 hb1 rfl]
    simp [Platform.wrapInt_of_inRange _ x hx]
  obtain ⟨k1, k2⟩ := key v hv
  refine ⟨k1, k2, ?_, (key 20 w.env.plat.inRange_twenty).2⟩
  show (Prog.bind (store p v) (fun _ => load p) w).1 = .ok v
  unfold Prog.bind
  cases hs : store p v w with
  | mk r w1 =>
    rw [hs] at k1 k2
    simp only at k1 k2
    subst k1
    simpa using k2

theorem store_load_round_trip_witness :
    validHandle (malloc 4 (World.init envOK)).2 4096 = true ∧ ilp32.inRange (-2147483648) ∧
      (load 4096 (store 4096 (-2147483648) (malloc 4 (World.init envOK)).2).2).1
        = .ok (-2147483648) :=
  ⟨by decide, by decide,
    (store_load_round_trip (malloc 4 (World.init envOK)).2 4096 (-2147483648)
      (by decide) (by decide)).2.1⟩

/-- C7: reading through a valid handle does not change the cell: whatever
the state of the cell, `n` reads in a row all return the value one read
returns and leave the heap as it was; after a write of `v` that value is
`v`, and after the write of `main` it is `20`. -/
theorem load_idempotent (w : World) (p : Nat) (n : Nat) (hp : validHandle w p = true) :
    (∃ x, (load p w).1 = .ok x ∧
        (readN p n w).1 = .ok (List.replicate n x) ∧
        (readN p n w).2.heap = w.heap) ∧
      (∀ v, w.env.plat.inRange v →
        (readN p n (store p v w).2).1 = .ok (List.replicate n v)) ∧
      ∀ env : Env, env.allocOK →
        (readN env.handle n (run env).2).1 = .ok (List.replicate n 20) := by
  obtain ⟨hp0, b, c, cs, hb, hc⟩ := validHandle_spec w p hp
  refine ⟨⟨c.val, ?_, ?_, ?_⟩, ?_, ?_⟩
  · rw [load_eq w p b c cs hp0 hb hc]
  · exact (readN_eq p b c cs hp0 hc n w hb).1
  · exact (readN_eq p b c cs hp0 hc n w hb).2.1
  · intro v hv
    rw [store_eq w p v b c cs hp0 hb hc]
    have hb1 := findBlock_updateBlock w.heap p b
      { b with cells := ⟨w.env.plat.wrapInt v, true⟩ :: cs } hb (findBlock_some _ _ _ hb).1
      (findBlock_some _ _ _ hb).2
    have := (readN_eq p _ ⟨w.env.plat.wrapInt v, true⟩ cs hp0 rfl n
      { w with
        heap := updateBlock p { b with cells := ⟨w.env.plat.wrapInt v, true⟩ :: cs } w.heap,
        trace := w.trace ++ [.store p (w.env.plat.wrapInt v)] } hb1).1
    rw [Platform.wrapInt_of_inRange _ v hv] at this ⊢
    exact this
  · intro env he
    rw [run_of_allocOK env he]
    have hf : findBlock [finalBlock env] env.handle = some (finalBlock env) := by
      simp [findBlock, finalBlock, Env.handle, castPtr]
    exact (readN_eq env.handle (finalBlock env) ⟨20, true⟩ [] he rfl n _ hf).1

theorem load_idempotent_witness :
    validHandle (run envOK).2 4096 = true ∧
      (readN envOK.handle 3 (run envOK).2).1 = .ok [20, 20, 20] :=
  ⟨by decide, (load_idempotent (run envOK).2 4096 3 (by decide)).2.2 envOK (by decide)⟩

/-! ## The report -/

/-- C3: for every value `v` the call `printf("The of px is : %d", v)` appends
to standard output the label `The of px is : ` and right after it the signed
decimal text of `v`, and nothing else: a `-` exactly when `v` is negative,
then the decimal digits of the magnitude of `v`, at least one, with no
leading zero and no padding. -/
theorem printf_report (w : World) (v : Int) :
    ∃ ds : List Nat,
      (printf "The of px is : %d" [v] w).2.out =
          w.out ++ ("The of px is : ".toList ++ ((if v < 0 then ['-'] else []) ++
            ds.map digitChar)) ∧
        ds ≠ [] ∧
        ds.all (fun d => decide (d < 10)) = true ∧
        (ds.head? ≠ some 0 ∨ ds = [0]) ∧
        decValue ds = v.natAbs ∧
        "0123456789".toList = (List.range 10).map digitChar := by
  obtain ⟨ds, h1, h2, h3, h4, h5⟩ := itoa_spec v
  refine ⟨ds, ?_, h2, h3, h4, h5, by decide⟩
  unfold printf
  rw [format_label, h1]
  simp [World.log]

/-! ## The lifecycle of the cell -/

/-- The model can tell a leak from a release: a program that calls `free`
takes its handle to `Freed`. -/
theorem allocThenFree_reaches_freed :
    lifecycleHistory envOK.handle (allocThenFree (World.init envOK)).2.trace =
        [.Unallocated, .Allocated, .Freed] ∧
      lifecycleOf (allocThenFree (World.init envOK)).2.heap envOK.handle = .Freed := by
  decide

/-- The model can tell fresh storage from written storage: a program that
reads its cell before writing it gets what lay there. -/
theorem peekFresh_reads_garbage (env : Env) (h : env.allocOK) :
    (peekFresh (World.init env)).1 = .ok (env.plat.wrapInt env.garbage) ∧
      uninitReads (peekFresh (World.init env)).2.trace =
        [.load env.mallocResult (env.plat.wrapInt env.garbage) false] := by
  unfold Env.allocOK at h
  have hs := env.plat.sizeofInt_pos
  simp [peekFresh, bind, Prog.bind, pure, Prog.pure, sizeof, pxType, CType.pointee, sizeofType,
    malloc, castPtr, load, World.init, World.log, h, findBlock, Nat.div_self hs, uninitReads]

/-- C9 as stated does not hold of every run: in a run in which the allocator
answers with the null pointer the handle never leaves `Unallocated`, so it
does not move to `Allocated` exactly once. -/
theorem lifecycle_alloc_failure_counterexample :
    lifecycleHistory envFail.handle (run envFail).2.trace = [.Unallocated, .Unallocated] ∧
      countMoves .Unallocated .Allocated
        (lifecycleHistory envFail.handle (run envFail).2.trace) = 0 ∧
      ¬ LeakedOnce envFail := by
  decide

/-- C9, amended: in no run of `main` is the storage released: the trace has
no `free` and no handle reaches `Freed`. In every run with a satisfied
allocation the handle `px` moves from `Unallocated` to `Allocated` exactly
once and is still `Allocated`, in the trace and in the heap, when `main`
returns. In every run in which the allocator answers with the null pointer
the handle, like every other, stays `Unallocated` throughout: it never moves
to `Allocated`, and the heap holds no block for it. -/
theorem main_never_frees (env : Env) :
    (∀ p, Event.free p ∉ (run env).2.trace) ∧
      (∀ h, Lifecycle.Freed ∉ lifecycleHistory h (run env).2.trace) ∧
      (env.allocOK →
        LeakedOnce env ∧ (run env).1 = .ok 0 ∧ StillAllocated (run env).2 env.handle ∧
          lifecycleHistory env.handle (run env).2.trace =
            [.Unallocated, .Allocated, .Allocated, .Allocated, .Allocated, .Allocated]) ∧
      (env.mallocResult = 0 →
        (∀ h, lifecycleHistory h (run env).2.trace = [.Unallocated, .Unallocated]) ∧
          countMoves .Unallocated .Allocated
            (lifecycleHistory env.handle (run env).2.trace) = 0 ∧
          lifecycleOf (run env).2.heap env.handle = .Unallocated ∧
          ¬ LeakedOnce env) := by
  refine ⟨run_no_free env, fun h => ?_, fun hok => ?_, fun hfail => ?_⟩
  · exact lifecycleFrom_no_free h _ _ (by simp) (run_no_free env)
  · have hok1 : env.mallocResult ≠ 0 := hok
    have hist : lifecycleHistory env.handle (okTrace env) =
        [.Unallocated, .Allocated, .Allocated, .Allocated, .Allocated, .Allocated] := by
      simp [lifecycleHistory, lifecycleFrom, Lifecycle.step, okTrace, Env.handle, castPtr, hok1]
    have still : StillAllocated
        ⟨env, [finalBlock env], "The of px is : 20".toList, okTrace env⟩ env.handle := by
      unfold StillAllocated
      simp only [hist]
      refine ⟨rfl, ?_⟩
      simp [lifecycleOf, findBlock, finalBlock, Env.handle, castPtr]
    have leaked : LeakedOnce env := by
      unfold LeakedOnce
      rw [run_of_allocOK env hok]
      simp only [hist]
      exact ⟨by decide, by decide, still⟩
    refine ⟨leaked, ?_, ?_, ?_⟩
    · rw [run_of_allocOK env hok]
    · rw [run_of_allocOK env hok]; exact still
    · rw [run_of_allocOK env hok]; exact hist
  · have hist : ∀ h, lifecycleHistory h [Event.malloc env.plat.sizeofInt 0] =
        [.Unallocated, .Unallocated] := by
      intro h
      simp [lifecycleHistory, lifecycleFrom, Lifecycle.step]
    have moves : countMoves .Unallocated .Allocated
        (lifecycleHistory env.handle (run env).2.trace) = 0 := by
      rw [run_of_allocFail env hfail]
      simp only [hist]
      decide
    refine ⟨?_, moves, ?_, ?_⟩
    · intro h
      rw [run_of_allocFail env hfail]
      exact hist h
    · rw [run_of_allocFail env hfail]
      simp [lifecycleOf, findBlock]
    · intro hl
      have h1 := hl.1
      rw [moves] at h1
      exact absurd h1 (by decide)

theorem main_never_frees_witness :
    (envOK.allocOK ∧ LeakedOnce envOK) ∧
      (envFail.mallocResult = 0 ∧
        ∀ h, lifecycleHistory h (run envFail).2.trace = [.Unallocated, .Unallocated]) :=
  ⟨⟨by decide, ((main_never_frees envOK).2.2.1 (by decide)).1⟩,
    ⟨by decide, ((main_never_frees envFail).2.2.2 (by decide)).1⟩⟩

end Lesson9
